import Mathlib

/-!
Verification of the comfy-screener pipeline (Rust sources under `src/`).

Shallow embedding conventions:
* Rust `f64` values are modelled by `F64`: finite values are carried as exact
  rationals (the claims under scrutiny are arithmetic identities, not rounding
  facts), with explicit `inf` / `neginf` / `nan` constructors for the
  non-finite values; the arithmetic operations used by the code follow the
  IEEE-754 special-value rules on these constructors.
* Rust `Option` becomes `Option`, fallible code returns `Except Unit`.
* Strings are handled as `List Char`; whitespace is modelled by the ASCII
  whitespace characters (the Unicode-only whitespace code points play no role
  in any claim).
* `i64` / `u64` / `u32` quantities are modelled as `ℤ` / `ℕ`; the one place
  where `f64` rounding could matter (the `(x as f64 * 0.90) as u32` safe
  capacity in `klines.rs`) is modelled exactly as `9 * x / 10`, which agrees
  with the double-precision computation for every `u32` input because the
  accumulated rounding error (< 1e-6) is far below the 0.1 gap between the
  exact product and the nearest smaller integer.
-/

namespace Screener

/-- Model of a Rust `f64` value: a finite value (exact rational), one of the
two infinities, or NaN. -/
inductive F64 where
  | fin (q : ℚ)
  | inf
  | neginf
  | nan
deriving DecidableEq

/-- IEEE-style division on modelled `f64` values (`last_close / first_close`
in `analyze_klines_data`). -/
def F64.divF : F64 → F64 → F64
  | .nan, _ => .nan
  | _, .nan => .nan
  | .inf, .inf => .nan
  | .inf, .neginf => .nan
  | .neginf, .inf => .nan
  | .neginf, .neginf => .nan
  | .inf, .fin q => if q < 0 then .neginf else .inf
  | .neginf, .fin q => if q < 0 then .inf else .neginf
  | .fin _, .inf => .fin 0
  | .fin _, .neginf => .fin 0
  | .fin a, .fin b =>
      if b = 0 then (if a = 0 then .nan else if a < 0 then .neginf else .inf)
      else .fin (a / b)

/-- IEEE-style subtraction on modelled `f64` values. -/
def F64.subF : F64 → F64 → F64
  | .nan, _ => .nan
  | _, .nan => .nan
  | .inf, .inf => .nan
  | .inf, _ => .inf
  | .neginf, .neginf => .nan
  | .neginf, _ => .neginf
  | .fin _, .inf => .neginf
  | .fin _, .neginf => .inf
  | .fin a, .fin b => .fin (a - b)

/-- IEEE-style multiplication on modelled `f64` values. -/
def F64.mulF : F64 → F64 → F64
  | .nan, _ => .nan
  | _, .nan => .nan
  | .inf, .inf => .inf
  | .inf, .neginf => .neginf
  | .neginf, .inf => .neginf
  | .neginf, .neginf => .inf
  | .inf, .fin q => if q = 0 then .nan else if q < 0 then .neginf else .inf
  | .fin q, .inf => if q = 0 then .nan else if q < 0 then .neginf else .inf
  | .neginf, .fin q => if q = 0 then .nan else if q < 0 then .inf else .neginf
  | .fin q, .neginf => if q = 0 then .nan else if q < 0 then .inf else .neginf
  | .fin a, .fin b => .fin (a * b)

/-- Model of Rust `f64::partial_cmp`: `none` exactly when one of the operands
is NaN. -/
def F64.pcmp : F64 → F64 → Option Ordering
  | .nan, _ => none
  | _, .nan => none
  | .inf, .inf => some .eq
  | .inf, _ => some .gt
  | _, .inf => some .lt
  | .neginf, .neginf => some .eq
  | .neginf, _ => some .lt
  | _, .neginf => some .gt
  | .fin a, .fin b =>
      if a < b then some .lt else if b < a then some .gt else some .eq

/-- One record of the `klines.json` input after field decoding
(`InputKline` in `cumulative_price_change.rs`): lenient-parsed open and
close prices and an optional close time. -/
structure InputKline where
  open_ : Option F64
  close : Option F64
  closeTime : Option ℤ
deriving DecidableEq

/-- The validity predicate of `analyze_klines_data`: open, close and
closeTime all present. -/
def isValidKline (k : InputKline) : Bool :=
  k.open_.isSome && k.close.isSome && k.closeTime.isSome

/-- `analyze_klines_data` from `cumulative_price_change.rs`: first / last
valid candle (Rust `find` / `rfind`, the latter modelled as `find?` on the
reversed list), a division guard on the first valid close, and the cumulative
return `((last_close / first_close) - 1) * 100` with the last valid close
time. -/
def analyze_klines_data (klines : List InputKline) : Option (F64 × ℤ) :=
  if klines.isEmpty then none
  else
    match klines.find? isValidKline, klines.reverse.find? isValidKline with
    | some first_kline, some last_kline =>
        match first_kline.close, last_kline.close, last_kline.closeTime with
        | some first_close, some last_close, some last_close_time =>
            if first_close = F64.fin 0 then none
            else
              some (((last_close.divF first_close).subF (.fin 1)).mulF (.fin 100),
                last_close_time)
        | _, _, _ => none
    | _, _ => none

/-- `SymbolData` from `cumulative_price_change.rs`. -/
structure SymbolData where
  symbol : String
  klines : List InputKline
  underlying_sub_type : List String
deriving DecidableEq

/-- `ResultItem` from `cumulative_price_change.rs`. -/
structure ResultItem where
  symbol : String
  movement_pct : F64
  sub_type : List String
deriving DecidableEq

/-- One iteration of the result-collection loop of
`cumulative_price_change::run`: append the movement result when the reduction
succeeds and bump the running maximal close time (which starts at 0). -/
def collectStep (acc : List ResultItem × ℤ) (sd : SymbolData) : List ResultItem × ℤ :=
  match analyze_klines_data sd.klines with
  | none => acc
  | some (m, t) =>
      (acc.1 ++ [⟨sd.symbol, m, sd.underlying_sub_type⟩],
       if t > acc.2 then t else acc.2)

/-- The result-collection loop of `cumulative_price_change::run` (results in
input order together with the running `max_close_time`, initialised to 0). -/
def collectResults (syms : List SymbolData) : List ResultItem × ℤ :=
  syms.foldl collectStep ([], 0)

/-- The close timestamps of exactly those instruments whose reduction
succeeds (the timestamps that enter the published snapshot). -/
def includedTimestamps (syms : List SymbolData) : List ℤ :=
  syms.filterMap (fun sd => (analyze_klines_data sd.klines).map Prod.snd)

/-- Control-flow skeleton of `cumulative_price_change::run`: storage set-up
may fail (abort), a failed load of the klines record returns `Ok` silently
without saving, an empty result list returns `Ok` silently without saving,
and otherwise `save` is called exactly once (a failing save aborts).  The
returned number counts the `save` calls of the run. -/
def runAnalysis (initOk : Bool) (loadRes : Except Unit (List SymbolData))
    (saveOk : Bool) : Except Unit Unit × ℕ :=
  if initOk = false then (.error (), 0)
  else
    match loadRes with
    | .error _ => (.ok (), 0)
    | .ok syms =>
        if (collectResults syms).1.isEmpty then (.ok (), 0)
        else if saveOk then (.ok (), 1) else (.error (), 1)

/-- The comparator passed to `sort_unstable_by` in
`cumulative_price_change::run`: descending by movement, with a
non-comparable (NaN) pair collapsed to `Equal` via `unwrap_or`. -/
def cmpDesc (a b : ResultItem) : Ordering :=
  (F64.pcmp b.movement_pct a.movement_pct).getD .eq

/-- No collected movement is NaN (under this condition the comparator is a
total preorder, so `sort_unstable_by` guarantees a sorted result). -/
def noNanMovement (l : List ResultItem) : Prop :=
  ∀ x ∈ l, x.movement_pct ≠ F64.nan

/-- A list is ranked when no pair (in order) compares `Greater` under the
descending comparator, i.e. movements are non-increasing. -/
def rankedOk (l : List ResultItem) : Prop :=
  List.Pairwise (fun a b => cmpDesc a b ≠ Ordering.gt) l

/-- The documented contract of `Vec::sort_unstable_by` as used by
`cumulative_price_change::run`: the output is some permutation of the input,
and whenever the comparator is a total order on the input (no NaN movement
here) the output is sorted by it.  The order of elements that compare equal
is unspecified — the contract explicitly does not promise stability. -/
def sortUnstableByOk (inp out : List ResultItem) : Prop :=
  inp.Perm out ∧ (noNanMovement inp → rankedOk out)

/-- `RateLimit` descriptor of the exchange metadata used by `klines::run`. -/
structure RateLimit where
  limit_type : String
  interval : String
  limit : ℕ
deriving DecidableEq

/-- `calculate_request_weight` from `klines.rs` (match on `u32` ranges). -/
def calculate_request_weight (limit : ℕ) : ℕ :=
  if limit ≤ 99 then 1
  else if limit ≤ 499 then 2
  else if limit ≤ 1000 then 5
  else 10

/-- The descriptor test of `klines::run`:
`limit_type == "REQUEST_WEIGHT" && interval == "MINUTE"`. -/
def isReqWeightMinute (r : RateLimit) : Bool :=
  r.limit_type == "REQUEST_WEIGHT" && r.interval == "MINUTE"

/-- The advertised per-minute weight ceiling: the first matching descriptor's
limit, defaulting to 2400 when absent (`unwrap_or(2400)` in `klines::run`). -/
def apiLimitTotal (rls : List RateLimit) : ℕ :=
  ((rls.find? isReqWeightMinute).map RateLimit.limit).getD 2400

/-- `(api_limit_total as f64 * 0.90) as u32` from `klines::run`, modelled
exactly (see the module comment for why the `f64` detour agrees). -/
def safeCapacity (c : ℕ) : ℕ := 9 * c / 10

/-- `std::cmp::max(1, safe_capacity / weight_per_req)` from `klines::run`. -/
def batchSize (rls : List RateLimit) (limit : ℕ) : ℕ :=
  max 1 (safeCapacity (apiLimitTotal rls) / calculate_request_weight limit)

/-- `slice::chunks(batch_size)` as iterated by `klines::run`: consecutive
chunks of size `n`, the final one possibly shorter.  (Rust panics on `n = 0`;
the model returns `[]` there and every theorem assumes `1 ≤ n`.) -/
def chunksOf {α : Type} (n : ℕ) : List α → List (List α)
  | [] => []
  | x :: xs =>
      if h : n = 0 then []
      else (x :: xs).take n :: chunksOf n ((x :: xs).drop n)
termination_by l => l.length
decreasing_by
  have hn : 0 < n := Nat.pos_of_ne_zero h
  simp only [List.length_drop, List.length_cons]
  omega

/-- ASCII whitespace, the characters relevant to `str::trim` and to the
regex class in the ban-message scan. -/
def isWsChar (c : Char) : Bool :=
  c = ' ' || c = '\t' || c = '\n' || c = '\r' || c = '\x0b' || c = '\x0c'

/-- Prefix test on character lists. -/
def listStartsWith : List Char → List Char → Bool
  | [], _ => true
  | _ :: _, [] => false
  | p :: ps, c :: cs => p == c && listStartsWith ps cs

/-- Substring containment (`str::contains` on a literal needle). -/
def containsSubstr (needle : List Char) : List Char → Bool
  | [] => listStartsWith needle []
  | c :: cs => listStartsWith needle (c :: cs) || containsSubstr needle cs

/-- Numeric value of a run of decimal digits. -/
def digitsToNat (ds : List Char) : ℕ :=
  ds.foldl (fun a c => 10 * a + (c.toNat - '0'.toNat)) 0

/-- One anchored attempt of the regex `until\s+(\d+)` at the head of the
list: the literal token, at least one whitespace character, then the greedy
(maximal) digit run as the capture. -/
def matchUntilAt (cs : List Char) : Option ℕ :=
  if listStartsWith "until".data cs then
    let rest := cs.drop 5
    let ws := rest.takeWhile isWsChar
    if ws.isEmpty then none
    else
      let after := rest.dropWhile isWsChar
      let ds := after.takeWhile Char.isDigit
      if ds.isEmpty then none else some (digitsToNat ds)
  else none

/-- `Regex::captures` for `until\s+(\d+)`: the leftmost position where the
whole pattern matches, with its digit capture. -/
def findUntilCapture : List Char → Option ℕ
  | [] => none
  | c :: cs =>
      match matchUntilAt (c :: cs) with
      | some n => some n
      | none => findUntilCapture cs

/-- `str::parse::<u64>().unwrap_or(0)` applied to the captured digit run:
the value, or 0 on `u64` overflow. -/
def parseU64 (n : ℕ) : ℕ := if n < 2 ^ 64 then n else 0

/-- The ban-backoff decision of `fetch_kline` (`klines.rs`) on a 418/429
response body: when the body contains the `-1003` marker and the regex
captures a timestamp that parses to a value strictly in the future, the task
sleeps `(ban_until - now) / 1000 + 5` seconds; otherwise it does not sleep.
Time (`now`, `ban_until`) is in milliseconds; the returned duration is in
seconds, exact as a rational. -/
def banWaitSeconds (body : List Char) (now : ℕ) : Option ℚ :=
  if containsSubstr "-1003".data body then
    match findUntilCapture body with
    | some raw =>
        let ban_until := parseU64 raw
        if now < ban_until then some (((ban_until - now : ℕ) : ℚ) / 1000 + 5)
        else none
    | none => none
  else none

/-- The full outcome of `fetch_kline` on a rate-limited (418 or 429)
response: an optional suspension (modelled as the returned wait duration,
since the sleep is the only effect) and the fetch result, which is `none` on
every branch of that path — no record, and no error surfaced to the run. -/
def fetchRateLimitedOutcome (body : List Char) (now : ℕ) : Option ℚ × Option Unit :=
  (banWaitSeconds body now, none)

/-- Abstract filesystem state seen by `AsyncStorageManager::save`
(`storage_utils.rs`): the contents of the final `<name>.json` file and of
the temporary `<name>.json.tmp` file. -/
structure FsState where
  finalFile : Option (List Char)
  tmpFile : Option (List Char)
deriving DecidableEq

/-- Step 1 of `save`: `tokio::fs::write` of the serialized bytes to the
temporary path. -/
def writeTmp (s : FsState) (content : List Char) : FsState :=
  { s with tmpFile := some content }

/-- Step 2 of `save`: `tokio::fs::rename` of the temporary file onto the
final path — atomic replacement per the POSIX rename contract. -/
def renameTmpToFinal (s : FsState) : FsState :=
  { finalFile := s.tmpFile, tmpFile := none }

/-- The possible interruption points of `save`: before anything is written,
in the middle of the temporary write (the temporary file then holds some
arbitrary byte string `written`), after the temporary write, and after the
atomic rename (= the completed save). -/
inductive CrashPoint where
  | beforeWrite
  | duringWrite (written : List Char)
  | afterWrite
  | afterRename
deriving DecidableEq

/-- The filesystem state after running `save` of serialized record `d` from
state `s0` up to the given interruption point. -/
def saveCrashed (s0 : FsState) (d : List Char) : CrashPoint → FsState
  | .beforeWrite => s0
  | .duringWrite w => writeTmp s0 w
  | .afterWrite => writeTmp s0 d
  | .afterRename => renameTmpToFinal (writeTmp s0 d)

/-- What a subsequent `load` observes: the raw contents of the final path. -/
def loadRaw (s : FsState) : Option (List Char) := s.finalFile

/-- A string is blank iff every character is whitespace
(`v.trim().is_empty()` in `LenientF64Visitor::visit_str`). -/
def isBlank (cs : List Char) : Bool := cs.all isWsChar

/-- ASCII-case-insensitive equality (`eq_ignore_ascii_case`). -/
def eqIgnoreCase (a b : List Char) : Bool :=
  a.map Char.toLower == b.map Char.toLower

/-- The optional exponent part of the Rust `f64` string grammar:
`(e|E) sign? digit+`, consuming the whole remainder. -/
def parseExpPart (cs : List Char) : Option ℤ :=
  match cs with
  | c :: rest =>
      if c = 'e' ∨ c = 'E' then
        let (sgn, rest2) : ℤ × List Char :=
          match rest with
          | '+' :: r => (1, r)
          | '-' :: r => (-1, r)
          | r => (1, r)
        let ds := rest2.takeWhile Char.isDigit
        if ds.isEmpty ∨ ¬ (rest2.drop ds.length).isEmpty then none
        else some (sgn * (digitsToNat ds : ℤ))
      else none
  | [] => none

/-- The decimal branch of the Rust `f64` string grammar (sign already
stripped): `digit* ('.' digit*)? exponent?` with at least one mantissa
digit, consuming the whole input.  The value is exact (see the module
comment on rounding). -/
def parseF64Dec (cs : List Char) : Option ℚ :=
  let ip := cs.takeWhile Char.isDigit
  let r1 := cs.drop ip.length
  let (fp, r2) : List Char × List Char :=
    match r1 with
    | '.' :: rest => (rest.takeWhile Char.isDigit, rest.drop (rest.takeWhile Char.isDigit).length)
    | _ => ([], r1)
  if ip.length + fp.length = 0 then none
  else
    let mant : ℚ := (digitsToNat ip : ℚ) + (digitsToNat fp : ℚ) / ((10 : ℚ) ^ fp.length)
    match r2 with
    | [] => some mant
    | _ =>
        match parseExpPart r2 with
        | some e => some (mant * (10 : ℚ) ^ e)
        | none => none

/-- `str::parse::<f64>` modelled on the documented grammar: an optional
sign, then `inf` / `infinity` / `nan` (ASCII-case-insensitive) or a decimal
number, consuming the whole string. -/
def parseF64 (cs0 : List Char) : Option F64 :=
  let (neg, cs) : Bool × List Char :=
    match cs0 with
    | '+' :: r => (false, r)
    | '-' :: r => (true, r)
    | r => (false, r)
  if eqIgnoreCase cs "inf".data || eqIgnoreCase cs "infinity".data then
    some (if neg then .neginf else .inf)
  else if eqIgnoreCase cs "nan".data then some .nan
  else (parseF64Dec cs).map (fun q => .fin (if neg then -q else q))

/-- The JSON shapes `LenientF64Visitor` distinguishes for a candle numeric
field: null, a number (f64 / i64 / u64 collapsed to an exact rational), a
string, or any other JSON value (bool / array / object — the visitor has no
handler for those, so serde rejects them). -/
inductive JsonF where
  | null
  | num (q : ℚ)
  | str (s : String)
  | other
deriving DecidableEq

/-- `deserialize_f64_lenient` / `LenientF64Visitor` from
`cumulative_price_change.rs`: null and blank strings yield `none`, numbers
and parseable strings yield the value, any other string (and any
non-null/number/string shape) is a deserialization error. -/
def deserialize_f64_lenient : JsonF → Except Unit (Option F64)
  | .null => .ok none
  | .num q => .ok (some (.fin q))
  | .str s =>
      if isBlank s.data then .ok none
      else
        match parseF64 s.data with
        | some f => .ok (some f)
        | none => .error ()
  | .other => .error ()

/-- The raw JSON shape of one stored candle as far as the decoder of
`cumulative_price_change.rs` looks at it: the two lenient-parsed numeric
fields and the plainly decoded optional `closeTime`. -/
structure KlineJson where
  openField : JsonF
  closeField : JsonF
  closeTimeField : Option ℤ
deriving DecidableEq

/-- Field decoding of one `InputKline` record: both lenient fields must
decode, any failure aborts the record. -/
def decodeInputKline (j : KlineJson) : Except Unit InputKline := do
  let o ← deserialize_f64_lenient j.openField
  let c ← deserialize_f64_lenient j.closeField
  .ok ⟨o, c, j.closeTimeField⟩

/-- The raw JSON shape of one stored `SymbolData` record. -/
structure SymbolJson where
  symbol : String
  klines : List KlineJson
  underlying_sub_type : List String
deriving DecidableEq

/-- Sequential decoding of a list, stopping at the first failing element —
serde's behaviour for a JSON array. -/
def mapME {α β : Type} (f : α → Except Unit β) : List α → Except Unit (List β)
  | [] => .ok []
  | x :: xs =>
      match f x with
      | .error e => .error e
      | .ok y =>
          match mapME f xs with
          | .error e => .error e
          | .ok ys => .ok (y :: ys)

/-- Decoding one `SymbolData`: every candle of the record must decode. -/
def decodeSymbolData (j : SymbolJson) : Except Unit SymbolData :=
  match mapME decodeInputKline j.klines with
  | .error e => .error e
  | .ok ks => .ok ⟨j.symbol, ks, j.underlying_sub_type⟩

/-- Decoding the whole stored `klines.json` document
(`storage.load("klines")` in `cumulative_price_change::run`): every symbol
record must decode; one malformed field fails the entire load. -/
def decodeKlinesDoc (doc : List SymbolJson) : Except Unit (List SymbolData) :=
  mapME decodeSymbolData doc

/-- Generic JSON value as seen by the symbol filter
(`serde_json::Value`); numbers are modelled as integers — the exchange
metadata attributes the filter is applied to are strings, arrays, booleans,
nulls, integers and nested objects, and no claim exercises fractional
numeric attributes. -/
inductive JVal where
  | str (s : String)
  | num (n : ℤ)
  | bool (b : Bool)
  | null
  | arr (elems : List JVal)
  | obj (fields : List (String × JVal))

mutual

/-- Structural equality on JSON values (`serde_json::Value` equality). -/
def jvalBeq : JVal → JVal → Bool
  | .str a, .str b => a == b
  | .num a, .num b => a == b
  | .bool a, .bool b => a == b
  | .null, .null => true
  | .arr a, .arr b => jlistBeq a b
  | .obj a, .obj b => jfieldsBeq a b
  | _, _ => false

/-- Elementwise structural equality on JSON arrays. -/
def jlistBeq : List JVal → List JVal → Bool
  | [], [] => true
  | x :: xs, y :: ys => jvalBeq x y && jlistBeq xs ys
  | _, _ => false

/-- Fieldwise structural equality on JSON objects. -/
def jfieldsBeq : List (String × JVal) → List (String × JVal) → Bool
  | [], [] => true
  | (k1, v1) :: xs, (k2, v2) :: ys => k1 == k2 && jvalBeq v1 v2 && jfieldsBeq xs ys
  | _, _ => false

end

instance : BEq JVal := ⟨jvalBeq⟩

/-- Lowercase hex digit. -/
def hexDigit (n : ℕ) : Char :=
  if n < 10 then Char.ofNat ('0'.toNat + n) else Char.ofNat ('a'.toNat + (n - 10))

/-- JSON string escaping as `serde_json` performs it: quote, backslash and
the named control escapes, other control characters as `\u00XX`. -/
def escChar (c : Char) : List Char :=
  if c = '"' then ['\\', '"']
  else if c = '\\' then ['\\', '\\']
  else if c = '\n' then ['\\', 'n']
  else if c = '\r' then ['\\', 'r']
  else if c = '\t' then ['\\', 't']
  else if c = '\x08' then ['\\', 'b']
  else if c = '\x0c' then ['\\', 'f']
  else if c.toNat < 32 then
    ['\\', 'u', '0', '0', hexDigit (c.toNat / 16), hexDigit (c.toNat % 16)]
  else [c]

/-- A JSON string literal with its quotes. -/
def strLitChars (s : String) : List Char :=
  '"' :: (s.data.flatMap escChar) ++ ['"']

/-- Decimal rendering of a natural number. -/
def natToChars (n : ℕ) : List Char := Nat.toDigits 10 n

/-- Decimal rendering of an integer (`serde_json`'s integer output). -/
def intToChars : ℤ → List Char
  | .ofNat n => natToChars n
  | .negSucc m => '-' :: natToChars (m + 1)

mutual

/-- `serde_json::Value::to_string()`: the compact serialization used by the
catch-all comparison branch of `matches_filters`. -/
def jvalToChars : JVal → List Char
  | .str s => strLitChars s
  | .num n => intToChars n
  | .bool b => if b then "true".data else "false".data
  | .null => "null".data
  | .arr xs => '[' :: jlistChars xs ++ [']']
  | .obj fs => '\x7b' :: jfieldsChars fs ++ ['\x7d']

/-- Comma-separated serialization of array elements. -/
def jlistChars : List JVal → List Char
  | [] => []
  | [x] => jvalToChars x
  | x :: y :: rest => jvalToChars x ++ ',' :: jlistChars (y :: rest)

/-- Comma-separated serialization of object fields. -/
def jfieldsChars : List (String × JVal) → List Char
  | [] => []
  | [(k, v)] => strLitChars k ++ ':' :: jvalToChars v
  | (k, v) :: f :: rest => strLitChars k ++ ':' :: jvalToChars v ++ ',' :: jfieldsChars (f :: rest)

end

/-- Attribute lookup on an instrument record (the `serde_json::Map` is
modelled as an association list; `symbol.get(key)`). -/
def lookupAttr (attrs : List (String × JVal)) (k : String) : Option JVal :=
  (attrs.find? (fun kv => kv.1 == k)).map Prod.snd

/-- `Value::as_str`. -/
def asStr : JVal → Option String
  | .str s => some s
  | _ => none

/-- The per-key rule of `matches_filters` (`filter_utils.rs`, identical
logic in `find_tickers.rs`): a missing key fails; a string attribute must
equal the literal; an array attribute must contain the literal as a string
element; every other attribute is compared by the string equality of its
compact serialization with the literal. -/
def codeKeyMatch (attrs : List (String × JVal)) (k lit : String) : Bool :=
  match lookupAttr attrs k with
  | some (.str s) => s == lit
  | some (.arr xs) => xs.any (fun v => asStr v == some lit)
  | some v => jvalToChars v == lit.data
  | none => false

/-- `matches_filters`: logical AND of the per-key rule across every
predicate entry. -/
def matches_filters (attrs : List (String × JVal)) (filters : List (String × String)) : Bool :=
  filters.all (fun kv => codeKeyMatch attrs kv.1 kv.2)

/-- Removing an attribute from an instrument record. -/
def eraseAttr (attrs : List (String × JVal)) (k : String) : List (String × JVal) :=
  attrs.filter (fun kv => kv.1 != k)

/-- Skip JSON whitespace. -/
def skipWs (cs : List Char) : List Char := cs.dropWhile isWsChar

/-- Parse the body of a JSON string literal (opening quote already
consumed), handling the short escapes; fuel-bounded. -/
def parseStringChars : ℕ → List Char → Option (List Char × List Char)
  | 0, _ => none
  | _, [] => none
  | fuel + 1, c :: rest =>
      if c = '"' then some ([], rest)
      else if c = '\\' then
        match rest with
        | [] => none
        | e :: rest2 =>
            let dec : Option Char :=
              if e = '"' then some '"'
              else if e = '\\' then some '\\'
              else if e = '/' then some '/'
              else if e = 'n' then some '\n'
              else if e = 'r' then some '\r'
              else if e = 't' then some '\t'
              else if e = 'b' then some '\x08'
              else if e = 'f' then some '\x0c'
              else none
            match dec with
            | some d => (parseStringChars fuel rest2).map (fun p => (d :: p.1, p.2))
            | none => none
      else (parseStringChars fuel rest).map (fun p => (c :: p.1, p.2))

/-- Parse a JSON integer literal (optional minus, no leading zero). -/
def parseIntLit (cs : List Char) : Option (ℤ × List Char) :=
  let (neg, cs1) : Bool × List Char :=
    match cs with
    | '-' :: r => (true, r)
    | r => (false, r)
  let ds := cs1.takeWhile Char.isDigit
  if ds.isEmpty then none
  else if 2 ≤ ds.length ∧ ds.head? = some '0' then none
  else
    let v : ℤ := (digitsToNat ds : ℤ)
    some (if neg then -v else v, cs1.drop ds.length)

mutual

/-- Fuel-bounded recursive-descent parser for the generic JSON values of
the model (used only on the spec side of the refinement: the spec's filter
rule compares against "the literal parsed as a generic value"). -/
def parseJVal : ℕ → List Char → Option (JVal × List Char)
  | 0, _ => none
  | fuel + 1, cs0 =>
      match skipWs cs0 with
      | [] => none
      | c :: rest =>
          if c = 'n' then
            if listStartsWith "ull".data rest then some (.null, rest.drop 3) else none
          else if c = 't' then
            if listStartsWith "rue".data rest then some (.bool true, rest.drop 3) else none
          else if c = 'f' then
            if listStartsWith "alse".data rest then some (.bool false, rest.drop 4) else none
          else if c = '"' then
            (parseStringChars (rest.length + 1) rest).map
              (fun p => (.str (String.mk p.1), p.2))
          else if c = '[' then
            match skipWs rest with
            | ']' :: r => some (.arr [], r)
            | _ => (parseJElems fuel rest).map (fun p => (.arr p.1, p.2))
          else if c = '\x7b' then
            match skipWs rest with
            | '\x7d' :: r => some (.obj [], r)
            | _ => (parseJFields fuel rest).map (fun p => (.obj p.1, p.2))
          else
            (parseIntLit (c :: rest)).map (fun p => (.num p.1, p.2))

/-- Parse one or more comma-separated array elements up to `]`. -/
def parseJElems : ℕ → List Char → Option (List JVal × List Char)
  | 0, _ => none
  | fuel + 1, cs =>
      match parseJVal fuel cs with
      | none => none
      | some (v, rest) =>
          match skipWs rest with
          | ',' :: r2 => (parseJElems fuel r2).map (fun p => (v :: p.1, p.2))
          | ']' :: r2 => some ([v], r2)
          | _ => none

/-- Parse one or more comma-separated object fields up to the closing
brace. -/
def parseJFields : ℕ → List Char → Option (List (String × JVal) × List Char)
  | 0, _ => none
  | fuel + 1, cs =>
      match skipWs cs with
      | '"' :: rest =>
          match parseStringChars (rest.length + 1) rest with
          | none => none
          | some (kcs, r1) =>
              match skipWs r1 with
              | ':' :: r2 =>
                  match parseJVal fuel r2 with
                  | none => none
                  | some (v, r3) =>
                      match skipWs r3 with
                      | ',' :: r4 => (parseJFields fuel r4).map
                          (fun p => ((String.mk kcs, v) :: p.1, p.2))
                      | '\x7d' :: r4 => some ([(String.mk kcs, v)], r4)
                      | _ => none
              | _ => none
      | _ => none

end

/-- `serde_json::from_str` for a generic value: parse, then require that
only whitespace remains. -/
def parseJsonValue (s : String) : Option JVal :=
  match parseJVal (s.length + 1) s.data with
  | some (v, rest) => if (skipWs rest).isEmpty then some v else none
  | none => none

/-- Modelled from the spec: the per-key matching rule as §4.1 words it —
string attribute equals the literal, array attribute contains the literal as
an element, and every other (numeric / boolean / null / nested) attribute is
compared structurally against the literal parsed as a generic JSON value. -/
def specKeyMatch (attrs : List (String × JVal)) (k lit : String) : Bool :=
  match lookupAttr attrs k with
  | none => false
  | some (.str s) => s == lit
  | some (.arr xs) => xs.any (fun v => v == JVal.str lit)
  | some v =>
      match parseJsonValue lit with
      | some w => v == w
      | none => false

/-- Modelled from the spec: an instrument matches iff every predicate key is
present and satisfies the type-aware rule of §4.1. -/
def specMatchesFilters (attrs : List (String × JVal)) (filters : List (String × String)) : Bool :=
  filters.all (fun kv => specKeyMatch attrs kv.1 kv.2)

/-- Concrete candle sequence of the spec's movement example: first valid
close 100, last valid close 110, last close time 1700000000000. -/
def klC1 : List InputKline :=
  [⟨some (.fin 1), some (.fin 100), some 5⟩,
   ⟨some (.fin 1), some (.fin 110), some 1700000000000⟩]

/-- Movement result with movement 5.0. -/
def itemM5 : ResultItem := ⟨"A", .fin 5, []⟩

/-- Movement result with movement −3.0. -/
def itemMn3 : ResultItem := ⟨"B", .fin (-3), []⟩

/-- Movement result with movement 12.0. -/
def itemM12 : ResultItem := ⟨"C", .fin 12, []⟩

/-- Two distinct movement results with the same movement 1.0. -/
def itemE1 : ResultItem := ⟨"A", .fin 1, []⟩

/-- Second movement result with movement 1.0. -/
def itemE2 : ResultItem := ⟨"B", .fin 1, []⟩

/-- Ranking example input: movements [5.0, −3.0, 12.0]. -/
def inpRank : List ResultItem := [itemM5, itemMn3, itemM12]

/-- Ranking example output: movements [12.0, 5.0, −3.0]. -/
def outRank : List ResultItem := [itemM12, itemM5, itemMn3]

/-- Stability counterexample input: two equal movements in order A, B. -/
def inpStable : List ResultItem := [itemE1, itemE2]

/-- A permutation of `inpStable` that the unstable-sort contract allows:
same movements, relative order of the equal pair swapped. -/
def outStable : List ResultItem := [itemE2, itemE1]

/-- An instrument set whose single successful reduction has a negative close
timestamp. -/
def symsNegTs : List SymbolData :=
  [⟨"X", [⟨some (.fin 1), some (.fin 1), some (-1)⟩], []⟩]

/-- An instrument set with one ordinary successful reduction. -/
def symsOk : List SymbolData := [⟨"BTCUSDT", klC1, []⟩]

/-- Instrument record with a nested-object attribute. -/
def symNested : List (String × JVal) := [("k", .obj [("a", .num 1)])]

/-- Predicate whose literal is the same nested object written with interior
whitespace: structurally equal to the attribute, but not byte-identical to
its compact serialization. -/
def filNested : List (String × String) := [("k", "\x7b\"a\": 1\x7d")]

/-- Instrument record with a string attribute. -/
def symTrading : List (String × JVal) := [("status", .str "TRADING")]

/-- Matching predicate for `symTrading`. -/
def filTrading : List (String × String) := [("status", "TRADING")]

/-- A 418/429 response body carrying the −1003 ban marker and a resumption
timestamp after the token `until`. -/
def bodyBan : List Char :=
  "\x7b\"code\":-1003,\"msg\":\"Way too many requests; IP banned until 1700000100000.\"\x7d".data

/-- A stored klines document with one malformed close field (`"abc"`). -/
def docBad : List SymbolJson := [⟨"BTCUSDT", [⟨.num 1, .str "abc", some 3⟩], []⟩]

/-- Concatenating the chunks reproduces the list (bounded-length helper for
the well-founded recursion of `chunksOf`). -/
theorem chunksOf_join_aux {α : Type} (n : ℕ) (hn : 1 ≤ n) :
    ∀ (m : ℕ) (l : List α), l.length ≤ m → (chunksOf n l).flatten = l := by
  intro m
  induction m with
  | zero =>
      intro l hl
      have hnil : l = [] := List.eq_nil_of_length_eq_zero (Nat.le_zero.mp hl)
      subst hnil
      simp [chunksOf]
  | succ m ih =>
      intro l hl
      cases l with
      | nil => simp [chunksOf]
      | cons x xs =>
          rw [chunksOf]
          rw [dif_neg (by omega : ¬ n = 0)]
          rw [List.flatten_cons]
          rw [ih ((x :: xs).drop n) (by simp only [List.length_drop]; simp at hl ⊢; omega)]
          exact List.take_append_drop n (x :: xs)

/-- Every chunk is nonempty and no longer than the batch size (bounded-length
helper). -/
theorem chunksOf_shape_aux {α : Type} (n : ℕ) (hn : 1 ≤ n) :
    ∀ (m : ℕ) (l : List α), l.length ≤ m →
      ∀ c ∈ chunksOf n l, c ≠ [] ∧ c.length ≤ n := by
  intro m
  induction m with
  | zero =>
      intro l hl
      have hnil : l = [] := List.eq_nil_of_length_eq_zero (Nat.le_zero.mp hl)
      subst hnil
      simp [chunksOf]
  | succ m ih =>
      intro l hl
      cases l with
      | nil => simp [chunksOf]
      | cons x xs =>
          rw [chunksOf]
          rw [dif_neg (by omega : ¬ n = 0)]
          intro c hc
          rcases List.mem_cons.mp hc with h | h
          · subst h
            constructor
            · simp [List.take_eq_nil_iff]
              omega
            · simp [List.length_take]
          · exact ih ((x :: xs).drop n)
              (by simp only [List.length_drop]; simp at hl ⊢; omega) c h

/-- Claim C8: batch partitioning is lossless — for every instrument list and
every batch size ≥ 1, concatenating the consecutive chunks produced by the
scheduler reproduces the list exactly (no duplication, loss, or reordering),
and every chunk is nonempty, of length at most the batch size (the final one
possibly shorter). -/
theorem c8_batch_partition_lossless {α : Type} (n : ℕ) (hn : 1 ≤ n) (l : List α) :
    (chunksOf n l).flatten = l ∧ ∀ c ∈ chunksOf n l, c ≠ [] ∧ c.length ≤ n :=
  ⟨chunksOf_join_aux n hn l.length l le_rfl,
   chunksOf_shape_aux n hn l.length l le_rfl⟩

/-- Witness for C8 at batch size 2 on a three-element instrument list. -/
theorem c8_batch_partition_lossless_witness :
    1 ≤ 2 ∧ (chunksOf 2 ["BTCUSDT", "ETHUSDT", "XRPUSDT"]).flatten =
      ["BTCUSDT", "ETHUSDT", "XRPUSDT"] :=
  ⟨by decide,
   (c8_batch_partition_lossless 2 (by decide) ["BTCUSDT", "ETHUSDT", "XRPUSDT"]).1⟩

/-- The weight tiers of `calculate_request_weight` are at least 1. -/
theorem calculate_request_weight_pos (limit : ℕ) : 1 ≤ calculate_request_weight limit := by
  unfold calculate_request_weight
  split_ifs <;> norm_num

/-- Claim C3: the per-call weight follows the 1/2/5/10 step function of the
configured candle limit; the ceiling defaults to 2400 when no
REQUEST_WEIGHT/MINUTE descriptor exists; and the batch size equals
`max 1 (floor (0.90 * ceiling / weight))`. -/
theorem c3_batch_size (rls : List RateLimit) (limit : ℕ) :
    (limit ≤ 99 → calculate_request_weight limit = 1)
    ∧ (100 ≤ limit → limit ≤ 499 → calculate_request_weight limit = 2)
    ∧ (500 ≤ limit → limit ≤ 1000 → calculate_request_weight limit = 5)
    ∧ (1000 < limit → calculate_request_weight limit = 10)
    ∧ (rls.find? isReqWeightMinute = none → apiLimitTotal rls = 2400)
    ∧ batchSize rls limit =
        max 1 (Nat.floor ((0.9 : ℚ) * (apiLimitTotal rls : ℚ) /
          (calculate_request_weight limit : ℚ))) := by
  refine ⟨?_, ?_, ?_, ?_, ?_, ?_⟩
  · intro h; unfold calculate_request_weight; rw [if_pos h]
  · intro h1 h2; unfold calculate_request_weight
    rw [if_neg (by omega), if_pos h2]
  · intro h1 h2; unfold calculate_request_weight
    rw [if_neg (by omega), if_neg (by omega), if_pos h2]
  · intro h; unfold calculate_request_weight
    rw [if_neg (by omega), if_neg (by omega), if_neg (by omega)]
  · intro h; simp [apiLimitTotal, h]
  · have hw := calculate_request_weight_pos limit
    set c := apiLimitTotal rls with hc
    set w := calculate_request_weight limit with hwdef
    have hcast : (0.9 : ℚ) * (c : ℚ) / (w : ℚ) =
        ((9 * c : ℕ) : ℚ) / ((10 * w : ℕ) : ℚ) := by
      rw [show (0.9 : ℚ) = 9 / 10 by norm_num]
      push_cast
      rw [div_mul_eq_mul_div, div_div]
    rw [hcast, Nat.floor_div_nat, Nat.floor_natCast]
    unfold batchSize safeCapacity
    rw [Nat.div_div_eq_div_mul]

/-- Witness for C3: limit 750 costs weight 5, and with no advertised
descriptor the ceiling defaults to 2400, giving batch size
floor(2160 / 5) = 432. -/
theorem c3_batch_size_witness :
    calculate_request_weight 750 = 5 ∧ batchSize [] 750 = 432 := by
  constructor
  · exact (c3_batch_size [] 750).2.2.1 (by norm_num) (by norm_num)
  · decide

/-- Claim C7: the two-step save (write the full serialized record to the
temporary path, then rename over the final path) is atomic — at every
interruption point the final path holds either the previously persisted
record or the complete new record, never a partial one; and the completed
save publishes exactly the new record. -/
theorem c7_save_atomic (s0 : FsState) (d : List Char) (cp : CrashPoint) :
    (loadRaw (saveCrashed s0 d cp) = loadRaw s0 ∨
      loadRaw (saveCrashed s0 d cp) = some d)
    ∧ loadRaw (saveCrashed s0 d CrashPoint.afterRename) = some d := by
  constructor
  · cases cp <;> simp [saveCrashed, loadRaw, writeTmp, renameTmpToFinal]
  · simp [saveCrashed, loadRaw, writeTmp, renameTmpToFinal]

/-- Claim C5: on a 418/429 response the fetch yields no record and surfaces
no error; it suspends exactly when the body carries the −1003 marker with a
captured `until` timestamp that parses to a value strictly in the future, and
then for `(ban_until − now) / 1000 + 5` seconds (hence always at least 5
seconds); in every other case it yields no result immediately (no wait). -/
theorem c5_ban_backoff (body : List Char) (now : ℕ) :
    (fetchRateLimitedOutcome body now).2 = none
    ∧ ((fetchRateLimitedOutcome body now).1 = none ↔
        ¬ (containsSubstr "-1003".data body = true ∧
           ∃ raw, findUntilCapture body = some raw ∧ now < parseU64 raw))
    ∧ (∀ raw, containsSubstr "-1003".data body = true →
        findUntilCapture body = some raw → now < parseU64 raw →
        (fetchRateLimitedOutcome body now).1 =
            some (((parseU64 raw - now : ℕ) : ℚ) / 1000 + 5)
          ∧ (5 : ℚ) ≤ ((parseU64 raw - now : ℕ) : ℚ) / 1000 + 5) := by
  refine ⟨rfl, ?_, ?_⟩
  · by_cases hc : containsSubstr "-1003".data body = true
    · cases hr : findUntilCapture body with
      | none => simp [fetchRateLimitedOutcome, banWaitSeconds, hc, hr]
      | some raw =>
          by_cases hn : now < parseU64 raw
          · simp [fetchRateLimitedOutcome, banWaitSeconds, hc, hr, hn]
          · simp [fetchRateLimitedOutcome, banWaitSeconds, hc, hr, hn]
    · simp [fetchRateLimitedOutcome, banWaitSeconds, hc]
  · intro raw hc hr hn
    constructor
    · simp [fetchRateLimitedOutcome, banWaitSeconds, hc, hr, hn]
    · have : (0 : ℚ) ≤ ((parseU64 raw - now : ℕ) : ℚ) / 1000 := by positivity
      linarith

/-- Witness for C5: a body banned until 1700000100000 observed at time
1700000000000 suspends exactly 105 seconds (≥ 105.0 s) and yields no
result. -/
theorem c5_ban_backoff_witness :
    (fetchRateLimitedOutcome bodyBan 1700000000000).1 = some 105
    ∧ (105 : ℚ) ≤ 105
    ∧ (fetchRateLimitedOutcome bodyBan 1700000000000).2 = none := by
  have h := (c5_ban_backoff bodyBan 1700000000000).2.2 1700000100000
    (by decide) (by decide) (by decide)
  refine ⟨?_, le_refl _, (c5_ban_backoff bodyBan 1700000000000).1⟩
  rw [h.1]
  norm_num [parseU64]

/-- Counterexample to claim C6 as stated: with working storage, a run whose
klines record fails to load finishes with success (`Ok`) while having called
save zero times — it completes successfully without publishing a snapshot. -/
theorem c6_counterexample :
    ¬ ∀ (initOk : Bool) (loadRes : Except Unit (List SymbolData)) (saveOk : Bool),
        (runAnalysis initOk loadRes saveOk).1 = Except.ok () →
        (runAnalysis initOk loadRes saveOk).2 = 1 := by
  intro h
  exact absurd (h true (.error ()) true rfl) (by decide)

/-- Claim C6 as amended: a run calls save at most once; it calls save exactly
once iff set-up succeeded, the klines record loaded, and at least one
instrument reduced successfully (a failed load or an empty result set
completes successfully with no save and no published snapshot); and it aborts
with an error iff set-up failed or the single save attempt failed. -/
theorem c6_run_save (initOk : Bool) (loadRes : Except Unit (List SymbolData))
    (saveOk : Bool) :
    (runAnalysis initOk loadRes saveOk).2 ≤ 1
    ∧ ((runAnalysis initOk loadRes saveOk).2 = 1 ↔
        initOk = true ∧ ∃ syms, loadRes = Except.ok syms ∧
          (collectResults syms).1 ≠ [])
    ∧ ((runAnalysis initOk loadRes saveOk).1 = Except.error () ↔
        initOk = false ∨
          ((runAnalysis initOk loadRes saveOk).2 = 1 ∧ saveOk = false)) := by
  cases initOk with
  | false =>
      refine ⟨by simp [runAnalysis], by simp [runAnalysis], by simp [runAnalysis]⟩
  | true =>
      cases loadRes with
      | error e =>
          refine ⟨by simp [runAnalysis], by simp [runAnalysis], by simp [runAnalysis]⟩
      | ok syms =>
          by_cases hre : (collectResults syms).1.isEmpty
          · have hemp : (collectResults syms).1 = [] := by simpa using hre
            have hrun : runAnalysis true (Except.ok syms) saveOk = (Except.ok (), 0) := by
              simp [runAnalysis, hre]
            refine ⟨by simp [hrun], ?_, ?_⟩
            · rw [hrun]
              constructor
              · intro h; simp at h
              · rintro ⟨-, syms2, hs2, hne⟩
                injection hs2 with hs2
                subst hs2
                exact absurd hemp hne
            · rw [hrun]
              constructor
              · intro h; simp at h
              · rintro (h | ⟨h1, -⟩)
                · simp at h
                · simp at h1
          · have hemp : (collectResults syms).1 ≠ [] := by simpa using hre
            cases saveOk with
            | true =>
                have hrun : runAnalysis true (Except.ok syms) true = (Except.ok (), 1) := by
                  simp [runAnalysis, hre]
                refine ⟨by simp [hrun], ?_, ?_⟩
                · rw [hrun]
                  exact ⟨fun _ => ⟨rfl, syms, rfl, hemp⟩, fun _ => rfl⟩
                · rw [hrun]
                  constructor
                  · intro h; simp at h
                  · rintro (h | ⟨-, h2⟩)
                    · simp at h
                    · simp at h2
            | false =>
                have hrun : runAnalysis true (Except.ok syms) false = (Except.error (), 1) := by
                  simp [runAnalysis, hre]
                refine ⟨by simp [hrun], ?_, ?_⟩
                · rw [hrun]
                  exact ⟨fun _ => ⟨rfl, syms, rfl, hemp⟩, fun _ => rfl⟩
                · rw [hrun]
                  simp

/-- Witness for C6 (amended): a run with working storage, a loadable record
and one successful reduction calls save exactly once. -/
theorem c6_run_save_witness : (runAnalysis true (Except.ok symsOk) true).2 = 1 :=
  (c6_run_save true (Except.ok symsOk) true).2.1.mpr ⟨rfl, symsOk, rfl, by decide⟩

/-- The running `max_close_time` accumulator equals a `max`-fold over the
included timestamps started at the accumulator's initial value. -/
theorem collect_snd_eq_fold (syms : List SymbolData) :
    ∀ acc : List ResultItem × ℤ,
      (syms.foldl collectStep acc).2 = (includedTimestamps syms).foldl max acc.2 := by
  induction syms with
  | nil => intro acc; rfl
  | cons sd rest ih =>
      intro acc
      rw [List.foldl_cons, ih (collectStep acc sd)]
      cases h : analyze_klines_data sd.klines with
      | none =>
          have h1 : collectStep acc sd = acc := by simp [collectStep, h]
          have h2 : includedTimestamps (sd :: rest) = includedTimestamps rest := by
            simp [includedTimestamps, h]
          rw [h1, h2]
      | some mt =>
          have h1 : (collectStep acc sd).2 = max acc.2 mt.2 := by
            simp only [collectStep, h]
            rw [max_def]
            split_ifs <;> omega
          have h2 : includedTimestamps (sd :: rest) = mt.2 :: includedTimestamps rest := by
            simp [includedTimestamps, h]
          rw [h1, h2, List.foldl_cons]

/-- Counterexample to claim C9 as stated: a single instrument whose only
valid candle closes at timestamp −1 produces a snapshot timestamp of 0 (the
fold starts at 0), which is not the maximum (= −1) of the included close
timestamps — so "as-of equals the maximum across included results" fails. -/
theorem c9_counterexample :
    ¬ ∀ (syms : List SymbolData),
        includedTimestamps syms ≠ [] →
        (collectResults syms).2 ∈ includedTimestamps syms ∧
          ∀ t ∈ includedTimestamps syms, t ≤ (collectResults syms).2 := by
  intro h
  exact absurd (h symsNegTs (by decide)).1 (by decide)

/-- Claim C9 as amended: the published as-of timestamp is the maximum of 0
and all included close timestamps — the fold of `max` over the included
timestamps starting from the initial accumulator value 0, so nonpositive
timestamps are masked by the initial 0. -/
theorem c9_as_of_timestamp (syms : List SymbolData) :
    (collectResults syms).2 = (includedTimestamps syms).foldl max 0 :=
  collect_snd_eq_fold syms ([], 0)

/-- Sequential decoding fails whenever any element fails (the error payload
is `Unit`, so the failure is `.error ()`). -/
theorem mapME_error {α β : Type} (f : α → Except Unit β) :
    ∀ (l : List α) (x : α), x ∈ l → f x = .error () → mapME f l = .error () := by
  intro l
  induction l with
  | nil => intro x hx; simp at hx
  | cons a as ih =>
      intro x hx hfx
      rcases List.mem_cons.mp hx with h | h
      · subst h
        simp [mapME, hfx]
      · cases ha : f a with
        | error e => cases e; simp [mapME, ha]
        | ok y => simp [mapME, ha, ih x h hfx]

/-- Claim C10: the lenient numeric coercion returns absent for JSON null and
for blank strings, the parsed number for numbers and numeric strings, and a
deserialization error for any other non-blank string; one such error fails
the record, the symbol, and the whole stored klines document, after which the
analysis run returns success without saving anything. -/
theorem c10_lenient_parse :
    deserialize_f64_lenient JsonF.null = .ok none
    ∧ (∀ q : ℚ, deserialize_f64_lenient (.num q) = .ok (some (.fin q)))
    ∧ (∀ s : String, isBlank s.data = true → deserialize_f64_lenient (.str s) = .ok none)
    ∧ (∀ (s : String) (f : F64), isBlank s.data = false → parseF64 s.data = some f →
        deserialize_f64_lenient (.str s) = .ok (some f))
    ∧ (∀ s : String, isBlank s.data = false → parseF64 s.data = none →
        deserialize_f64_lenient (.str s) = .error ())
    ∧ (∀ kj : KlineJson, deserialize_f64_lenient kj.closeField = .error () →
        decodeInputKline kj = .error ())
    ∧ (∀ (sj : SymbolJson) (kj : KlineJson), kj ∈ sj.klines →
        decodeInputKline kj = .error () → decodeSymbolData sj = .error ())
    ∧ (∀ (doc : List SymbolJson) (sj : SymbolJson), sj ∈ doc →
        decodeSymbolData sj = .error () → decodeKlinesDoc doc = .error ())
    ∧ (∀ saveOk : Bool, runAnalysis true (.error ()) saveOk = (.ok (), 0)) := by
  refine ⟨rfl, fun q => rfl, ?_, ?_, ?_, ?_, ?_, ?_, fun saveOk => rfl⟩
  · intro s hs
    simp [deserialize_f64_lenient, hs]
  · intro s f hs hp
    simp [deserialize_f64_lenient, hs, hp]
  · intro s hs hp
    simp [deserialize_f64_lenient, hs, hp]
  · intro kj hclose
    cases ho : deserialize_f64_lenient kj.openField with
    | error e => cases e; simp [decodeInputKline, ho, Bind.bind, Except.bind]
    | ok o => simp [decodeInputKline, ho, hclose, Bind.bind, Except.bind]
  · intro sj kj hmem herr
    simp [decodeSymbolData, mapME_error decodeInputKline sj.klines kj hmem herr]
  · intro doc sj hmem herr
    exact mapME_error decodeSymbolData doc sj hmem herr

/-- Witness for C10: the document with close field `"abc"` fails to load
wholesale, and the analysis run then completes successfully with zero
saves. -/
theorem c10_lenient_parse_witness :
    decodeKlinesDoc docBad = .error ()
    ∧ runAnalysis true (decodeKlinesDoc docBad) true = (.ok (), 0) := by
  have h5 := c10_lenient_parse.2.2.2.2.1 "abc" (by decide) (by decide)
  have h6 := c10_lenient_parse.2.2.2.2.2.1 ⟨.num 1, .str "abc", some 3⟩ h5
  have h7 := c10_lenient_parse.2.2.2.2.2.2.1 ⟨"BTCUSDT", [⟨.num 1, .str "abc", some 3⟩], []⟩
    ⟨.num 1, .str "abc", some 3⟩ (by simp) h6
  have h8 := c10_lenient_parse.2.2.2.2.2.2.2.1 docBad
    ⟨"BTCUSDT", [⟨.num 1, .str "abc", some 3⟩], []⟩ (by simp [docBad]) h7
  refine ⟨h8, ?_⟩
  rw [h8]
  exact c10_lenient_parse.2.2.2.2.2.2.2.2 true

/-- Claim C1: the series reducer yields a movement result iff some candle
has open, close and closeTime all present and the first such candle's close
is nonzero; and on finite closes the result is
`((last_valid.close / first_valid.close) - 1) * 100` with the last valid
candle's close time — no-valid-candle and zero-first-close sequences yield
no result at all. -/
theorem analyze_reduce (kl : List InputKline) (f l : InputKline) (fc lc : F64) (lt : ℤ)
    (hkl : ¬ kl.isEmpty = true)
    (hf : kl.find? isValidKline = some f)
    (hl : kl.reverse.find? isValidKline = some l)
    (hfc : f.close = some fc) (hlc : l.close = some lc) (hlt : l.closeTime = some lt) :
    analyze_klines_data kl =
      if fc = F64.fin 0 then none
      else some (((lc.divF fc).subF (.fin 1)).mulF (.fin 100), lt) := by
  rw [analyze_klines_data, if_neg hkl, hf, hl]
  dsimp only
  rw [hfc, hlc, hlt]

theorem c1_series_reducer (kl : List InputKline) :
    ((analyze_klines_data kl).isSome ↔
      ∃ f, kl.find? isValidKline = some f ∧ f.close ≠ some (F64.fin 0))
    ∧ (∀ (f l : InputKline) (qf ql : ℚ) (t : ℤ),
        kl.find? isValidKline = some f →
        kl.reverse.find? isValidKline = some l →
        f.close = some (.fin qf) → qf ≠ 0 →
        l.close = some (.fin ql) → l.closeTime = some t →
        analyze_klines_data kl = some (.fin ((ql / qf - 1) * 100), t)) := by
  constructor
  · constructor
    · intro h
      by_cases hkl : kl.isEmpty
      · rw [analyze_klines_data, if_pos hkl] at h
        simp at h
      · cases hf : kl.find? isValidKline with
        | none =>
            rw [analyze_klines_data, if_neg hkl, hf] at h
            simp at h
        | some f =>
            cases hl : kl.reverse.find? isValidKline with
            | none =>
                rw [analyze_klines_data, if_neg hkl, hf, hl] at h
                simp at h
            | some l =>
                have hvf := List.find?_some hf
                have hvl := List.find?_some hl
                simp only [isValidKline, Bool.and_eq_true, Option.isSome_iff_exists] at hvf hvl
                obtain ⟨⟨⟨fo, hfo⟩, fc, hfc⟩, ft, hft⟩ := hvf
                obtain ⟨⟨⟨lo, hlo⟩, lc, hlc⟩, lt, hlt⟩ := hvl
                rw [analyze_reduce kl f l fc lc lt hkl hf hl hfc hlc hlt] at h
                by_cases hz : fc = F64.fin 0
                · rw [if_pos hz] at h; simp at h
                · exact ⟨f, rfl, by rw [hfc]; simp [hz]⟩
    · rintro ⟨f, hf, hne⟩
      have hkl : ¬ kl.isEmpty = true := by
        intro h
        rw [List.isEmpty_iff.mp h] at hf
        simp at hf
      have hvf := List.find?_some hf
      have hmemf : f ∈ kl := List.mem_of_find?_eq_some hf
      have hlsome : (kl.reverse.find? isValidKline).isSome := by
        rw [List.find?_isSome]
        exact ⟨f, by simpa using hmemf, hvf⟩
      cases hl : kl.reverse.find? isValidKline with
      | none => rw [hl] at hlsome; simp at hlsome
      | some l =>
          have hvl := List.find?_some hl
          simp only [isValidKline, Bool.and_eq_true, Option.isSome_iff_exists] at hvf hvl
          obtain ⟨⟨⟨fo, hfo⟩, fc, hfc⟩, ft, hft⟩ := hvf
          obtain ⟨⟨⟨lo, hlo⟩, lc, hlc⟩, lt, hlt⟩ := hvl
          have hz : fc ≠ F64.fin 0 := by
            intro hz
            rw [hfc, hz] at hne
            exact hne rfl
          rw [analyze_reduce kl f l fc lc lt hkl hf hl hfc hlc hlt, if_neg hz]
          simp
  · intro f l qf ql t hf hl hfc hqf hlc hlt
    have hkl : ¬ kl.isEmpty = true := by
      intro h
      rw [List.isEmpty_iff.mp h] at hf
      simp at hf
    rw [analyze_reduce kl f l (.fin qf) (.fin ql) t hkl hf hl hfc hlc hlt]
    rw [if_neg (by simp [hqf])]
    simp [F64.divF, F64.subF, F64.mulF, hqf]

/-- Witness for C1: first valid close 100, last valid close 110, last close
time 1700000000000 yields movement 10.0 and timestamp 1700000000000. -/
theorem c1_series_reducer_witness :
    analyze_klines_data klC1 = some (.fin 10, 1700000000000) := by
  have h := (c1_series_reducer klC1).2
    ⟨some (.fin 1), some (.fin 100), some 5⟩
    ⟨some (.fin 1), some (.fin 110), some 1700000000000⟩
    100 110 1700000000000 (by decide) (by decide) rfl (by norm_num) rfl rfl
  rw [h]
  norm_num

/-- On non-NaN values the descending comparator is antisymmetric: if neither
order compares `Greater`, the values are equal. -/
theorem f64_eq_of_pcmp (x y : F64) (hx : x ≠ F64.nan) (hy : y ≠ F64.nan)
    (h1 : (F64.pcmp x y).getD Ordering.eq ≠ Ordering.gt)
    (h2 : (F64.pcmp y x).getD Ordering.eq ≠ Ordering.gt) : x = y := by
  cases x with
  | nan => exact absurd rfl hx
  | inf =>
      cases y with
      | nan => exact absurd rfl hy
      | inf => rfl
      | neginf => simp [F64.pcmp] at h1
      | fin q => simp [F64.pcmp] at h1
  | neginf =>
      cases y with
      | nan => exact absurd rfl hy
      | neginf => rfl
      | inf => simp [F64.pcmp] at h2
      | fin q => simp [F64.pcmp] at h2
  | fin a =>
      cases y with
      | nan => exact absurd rfl hy
      | inf => simp [F64.pcmp] at h2
      | neginf => simp [F64.pcmp] at h1
      | fin b =>
          have hab : ¬ a < b := by
            intro hlt
            apply h2
            simp [F64.pcmp, if_neg (asymm hlt), if_pos hlt]
          have hba : ¬ b < a := by
            intro hlt
            apply h1
            simp [F64.pcmp, if_neg (asymm hlt), if_pos hlt]
          rw [le_antisymm (not_lt.mp hba) (not_lt.mp hab)]

/-- A permutation pair of ranked lists with pairwise-distinct, non-NaN
movements is unique: sortedness under the descending comparator pins the
order completely. -/
theorem ranked_perm_unique :
    ∀ (l₁ l₂ : List ResultItem), l₁.Perm l₂ → rankedOk l₁ → rankedOk l₂ →
      noNanMovement l₁ →
      List.Pairwise (fun a b => a.movement_pct ≠ b.movement_pct) l₁ →
      l₁ = l₂ := by
  intro l₁
  induction l₁ with
  | nil =>
      intro l₂ hp _ _ _ _
      exact (List.perm_nil.mp hp.symm).symm
  | cons a t ih =>
      intro l₂ hp hs1 hs2 hnn hd
      cases l₂ with
      | nil => simpa using List.perm_nil.mp hp
      | cons b t₂ =>
          by_cases hab : a = b
          · subst hab
            have hpt : t.Perm t₂ := hp.cons_inv
            rw [ih t₂ hpt (List.pairwise_cons.mp hs1).2 (List.pairwise_cons.mp hs2).2
              (fun x hx => hnn x (List.mem_cons_of_mem _ hx))
              (List.pairwise_cons.mp hd).2]
          · exfalso
            have haIn : a ∈ b :: t₂ := hp.subset (List.mem_cons_self _ _)
            have hbIn : b ∈ a :: t := hp.symm.subset (List.mem_cons_self _ _)
            have haT2 : a ∈ t₂ := by
              rcases List.mem_cons.mp haIn with h | h
              · exact absurd h hab
              · exact h
            have hbT : b ∈ t := by
              rcases List.mem_cons.mp hbIn with h | h
              · exact absurd h.symm hab
              · exact h
            have hr1 : cmpDesc a b ≠ Ordering.gt := (List.pairwise_cons.mp hs1).1 b hbT
            have hr2 : cmpDesc b a ≠ Ordering.gt := (List.pairwise_cons.mp hs2).1 a haT2
            have hna : a.movement_pct ≠ F64.nan := hnn a (List.mem_cons_self _ _)
            have hnb : b.movement_pct ≠ F64.nan := hnn b (List.mem_cons_of_mem _ hbT)
            have heq : b.movement_pct = a.movement_pct :=
              f64_eq_of_pcmp b.movement_pct a.movement_pct hnb hna hr1 hr2
            exact (List.pairwise_cons.mp hd).1 b hbT heq.symm

/-- Counterexample to claim C2 as stated: `sort_unstable_by` only promises a
sorted permutation, not stability — for the input [A(1.0), B(1.0)] the
output [B(1.0), A(1.0)] satisfies the sort contract, yet the equal-movement
pair does not keep its relative input order. -/
theorem c2_counterexample :
    ¬ ∀ (inp out : List ResultItem), sortUnstableByOk inp out →
        ∀ m : F64, out.filter (fun x => x.movement_pct == m) =
          inp.filter (fun x => x.movement_pct == m) := by
  intro h
  have hspec : sortUnstableByOk inpStable outStable := by
    constructor
    · exact List.Perm.swap itemE2 itemE1 []
    · intro _
      show List.Pairwise _ [itemE2, itemE1]
      refine List.Pairwise.cons ?_ (List.Pairwise.cons ?_ List.Pairwise.nil)
      · intro x hx
        fin_cases hx
        decide
      · intro x hx
        simp at hx
  exact absurd (h inpStable outStable hspec (F64.fin 1)) (by decide)

/-- Claim C2 as amended: the ranking step produces a permutation of the
collected results that is sorted non-increasingly by the descending
comparator (NaN compared equal) whenever no movement is NaN; the relative
order of equal movements is unspecified (the sort is unstable), but whenever
the movements are pairwise distinct the ranked order is uniquely
determined. -/
theorem c2_ranking (inp out₁ out₂ : List ResultItem)
    (h1 : sortUnstableByOk inp out₁) (h2 : sortUnstableByOk inp out₂) :
    inp.Perm out₁
    ∧ (noNanMovement inp → rankedOk out₁)
    ∧ (noNanMovement inp →
        List.Pairwise (fun a b => a.movement_pct ≠ b.movement_pct) inp →
        out₁ = out₂) := by
  refine ⟨h1.1, h1.2, fun hnn hd => ?_⟩
  have hp : out₁.Perm out₂ := h1.1.symm.trans h2.1
  have hnn1 : noNanMovement out₁ := fun x hx => hnn x (h1.1.symm.subset hx)
  have hd1 : List.Pairwise (fun a b => a.movement_pct ≠ b.movement_pct) out₁ :=
    (h1.1.pairwise_iff (fun hab => Ne.symm hab)).mp hd
  exact ranked_perm_unique out₁ out₂ hp (h1.2 hnn) (h2.2 hnn) hnn1 hd1

/-- Witness for C2 (amended): movements [5.0, −3.0, 12.0] admit the ranked
order [12.0, 5.0, −3.0], which satisfies the sort contract and is a
permutation of the input. -/
theorem c2_ranking_witness :
    sortUnstableByOk inpRank outRank ∧ inpRank.Perm outRank := by
  have hs : sortUnstableByOk inpRank outRank := by
    constructor
    · have p1 : List.Perm [itemM5, itemMn3, itemM12] [itemM5, itemM12, itemMn3] :=
        List.Perm.cons itemM5 (List.Perm.swap itemM12 itemMn3 [])
      have p2 : List.Perm [itemM5, itemM12, itemMn3] [itemM12, itemM5, itemMn3] :=
        List.Perm.swap itemM12 itemM5 [itemMn3]
      exact p1.trans p2
    · intro _
      show List.Pairwise _ [itemM12, itemM5, itemMn3]
      refine List.Pairwise.cons ?_ (List.Pairwise.cons ?_
        (List.Pairwise.cons ?_ List.Pairwise.nil))
      · intro x hx
        fin_cases hx <;> decide
      · intro x hx
        fin_cases hx
        decide
      · intro x hx
        simp at hx
  exact ⟨hs, (c2_ranking inpRank outRank outRank hs hs).1⟩

/-- After erasing a key, looking it up fails. -/
theorem lookupAttr_eraseAttr (attrs : List (String × JVal)) (k : String) :
    lookupAttr (eraseAttr attrs k) k = none := by
  unfold lookupAttr eraseAttr
  rw [List.find?_eq_none.mpr]
  · rfl
  · intro kv hkv
    have h2 := (List.mem_filter.mp hkv).2
    simp only [bne_iff_ne, ne_eq] at h2
    simp [h2]

/-- Counterexample to claim C4 as stated: for the nested-object attribute
`k = obj [a ↦ 1]` and the literal written with interior whitespace, the
spec's structural-equality rule matches (the literal parses to the same
object) while the code's serialized-string comparison does not — the code
compares `Value::to_string()` with the literal byte-for-byte instead of
parsing the literal. -/
theorem c4_counterexample :
    ¬ ∀ (attrs : List (String × JVal)) (filters : List (String × String)),
        matches_filters attrs filters = specMatchesFilters attrs filters := by
  intro h
  exact absurd (h symNested filNested) (by decide)

/-- Claim C4 as amended: the filter matches iff every predicate key passes
the per-key rule (missing key fails; string equality for strings; string
membership for arrays; byte equality of the compact serialization with the
literal for every other value); and deleting any referenced key from the
instrument flips the match to false. -/
theorem c4_symbol_filter (attrs : List (String × JVal))
    (filters : List (String × String)) :
    (matches_filters attrs filters = true ↔
      ∀ kv ∈ filters, codeKeyMatch attrs kv.1 kv.2 = true)
    ∧ (∀ k lit, (k, lit) ∈ filters → matches_filters attrs filters = true →
        matches_filters (eraseAttr attrs k) filters = false) := by
  constructor
  · simp [matches_filters, List.all_eq_true]
  · intro k lit hmem _hmatch
    have hkey : codeKeyMatch (eraseAttr attrs k) k lit = false := by
      simp [codeKeyMatch, lookupAttr_eraseAttr]
    cases hall : matches_filters (eraseAttr attrs k) filters with
    | false => rfl
    | true =>
        exfalso
        have hall2 : ∀ kv ∈ filters, codeKeyMatch (eraseAttr attrs k) kv.1 kv.2 = true :=
          List.all_eq_true.mp (by simpa [matches_filters] using hall)
        have := hall2 (k, lit) hmem
        rw [hkey] at this
        exact Bool.false_ne_true this

/-- Witness for C4 (amended): a TRADING instrument matches the status
predicate, and deleting the status attribute flips the match to false. -/
theorem c4_symbol_filter_witness :
    matches_filters symTrading filTrading = true
    ∧ matches_filters (eraseAttr symTrading "status") filTrading = false :=
  ⟨by decide,
   (c4_symbol_filter symTrading filTrading).2 "status" "TRADING" (by decide) (by decide)⟩

end Screener
